import Mathlib

/-!
Shallow embedding of the Frontier SQL mapping-sync worker
(`client/mapping-sync/src/sql/mod.rs`): the `KnownHashes` indexed-hash cache,
the `SyncWorker` batcher state, the ancestor-traversal loop `index`, the
interval and notification branches of `run`, and `canonicalize`.

Block hashes (`H256`) are modelled as natural numbers; the all-zero sentinel
`H256::default()` is `0`.  External collaborators (the SQL pool, the chain
backend, the indexer backend) are modelled as explicit oracles passed in, and
every database call that the worker performs is recorded in an explicit trace,
so theorems can speak about which batches reach `insert_block_metadata` and in
which order the backend calls happen.
-/

namespace Frontier

/-- Substrate block hash, 32 bytes in the source, modelled as a natural
number.  The all-zero sentinel is `0`. -/
abbrev H256 := Nat

/-- Result of the one-row SQL lookup used by `KnownHashes::contains`
(`SELECT substrate_block_hash FROM sync_status WHERE substrate_block_hash = ?`):
`Except.error` models a failed query, `Except.ok r` a successful query with an
optional row. -/
abbrev FetchFn := H256 → Except Unit (Option H256)

/-- In-memory cache of already indexed block hashes (struct `KnownHashes`).
The list models the `VecDeque`: the head of the list is the front of the
deque, the end of the list is its back. -/
structure KnownHashes where
  cache : List H256
  cache_size : Nat
  deriving DecidableEq

/-- Derived `Default for KnownHashes` of the source: empty deque and
`cache_size = 0`. -/
def KnownHashes.mkDefault : KnownHashes :=
  { cache := [], cache_size := 0 }

/-- Models `VecDeque::pop_back`: the removed back element (if any) together
with the remaining deque. -/
def popBack (l : List H256) : Option H256 × List H256 :=
  (l.getLast?, l.dropLast)

/-- Rows returned by
`SELECT substrate_block_hash FROM sync_status ORDER BY id DESC LIMIT n`
over a table listed in ascending insertion (`id`) order. -/
def syncStatusDescLimit (tbl : List H256) (n : Nat) : List H256 :=
  tbl.reverse.take n

/-- Models `KnownHashes::populate_cache`: every returned row is pushed to the
back of the deque, in query order. -/
def KnownHashes.populate_cache (k : KnownHashes) (tbl : List H256) : KnownHashes :=
  { k with cache := k.cache ++ syncStatusDescLimit tbl k.cache_size }

/-- Models `KnownHashes::insert`: when the deque length equals `cache_size`
the back is popped, then the value is pushed to the front; the popped element
(if any) is returned. -/
def KnownHashes.insert (k : KnownHashes) (value : H256) : Option H256 × KnownHashes :=
  let maybe_popped :=
    if k.cache.length = k.cache_size then (popBack k.cache).1 else none
  let remaining :=
    if k.cache.length = k.cache_size then (popBack k.cache).2 else k.cache
  (maybe_popped, { k with cache := value :: remaining })

/-- Models `KnownHashes::append`: inserts each element of the iterator in
iteration order. -/
def KnownHashes.append (k : KnownHashes) (other : List H256) : KnownHashes :=
  other.foldl (fun acc item => (acc.insert item).2) k

/-- Models `KnownHashes::contains_cached`: linear membership scan of the
deque. -/
def KnownHashes.contains_cached (k : KnownHashes) (value : H256) : Bool :=
  decide (value ∈ k.cache)

/-- Models `KnownHashes::contains`: cache hit short-circuits; on a miss the
database is queried, a failed query counts as absent. -/
def KnownHashes.contains (k : KnownHashes) (value : H256) (fetch : FetchFn) : Bool :=
  if k.contains_cached value then
    true
  else
    match fetch value with
    | Except.ok result => result.isSome
    | Except.error _ => false

/-- Models `KnownHashes::latest`: the front of the deque. -/
def KnownHashes.latest (k : KnownHashes) : Option H256 :=
  k.cache.head?

/-- The fetch function of a healthy database whose `sync_status` table holds
exactly the hashes in `tbl`. -/
def dbFetch (tbl : List H256) : FetchFn :=
  fun value => Except.ok (if value ∈ tbl then some value else none)

/-- A fetch function whose query always fails. -/
def errFetch : FetchFn :=
  fun _ => Except.error ()

/-- In-memory state of `SyncWorker` (the phantom type parameters and the
shared handles carry no state and are dropped). -/
structure SyncWorker where
  imported_blocks : KnownHashes
  current_batch : List H256
  batch_size : Nat
  deriving DecidableEq

/-- Models `SyncWorker::new`: both `imported_blocks` and `current_batch` are
default-constructed. -/
def SyncWorker.new (batch_size : Nat) : SyncWorker :=
  { imported_blocks := KnownHashes.mkDefault
    current_batch := []
    batch_size := batch_size }

/-- Models `SyncWorker::index_current_batch`.  The argument is the value
returned by `insert_block_metadata`; the source logs an error result and
otherwise discards it (`let _ = ... .map_err(log)`), then spawns the logs
task, appends the whole batch to the cache and clears the batch — on both
result branches alike. -/
def SyncWorker.index_current_batch (w : SyncWorker) (insertResult : Except Unit Unit) :
    SyncWorker :=
  match insertResult with
  | Except.ok _ =>
    { w with
      imported_blocks := w.imported_blocks.append w.current_batch
      current_batch := [] }
  | Except.error _ =>
    { w with
      imported_blocks := w.imported_blocks.append w.current_batch
      current_batch := [] }

/-- The tail of `SyncWorker::index_block` after the dedupe step: flush when
forced or when the batch reached `batch_size`.  Returns the boolean result of
`index_block`, the updated worker, and the batches passed to
`insert_block_metadata` (at most one). -/
def SyncWorker.flushCheck (w : SyncWorker) (force_sync : Bool)
    (insertResult : Except Unit Unit) : Bool × SyncWorker × List (List H256) :=
  if force_sync = true ∨ w.current_batch.length = w.batch_size then
    (true, w.index_current_batch insertResult, [w.current_batch])
  else
    (true, w, [])

/-- Models `SyncWorker::index_block`: a hash absent from the batch is pushed;
a duplicate without force returns `false` before the flush check; otherwise
the flush check runs on the (possibly extended) batch. -/
def SyncWorker.index_block (w : SyncWorker) (hash : H256) (force_sync : Bool)
    (insertResult : Except Unit Unit) : Bool × SyncWorker × List (List H256) :=
  if hash ∈ w.current_batch then
    if force_sync = false then
      (false, w, [])
    else
      w.flushCheck force_sync insertResult
  else
    SyncWorker.flushCheck
      { w with current_batch := w.current_batch ++ [hash] } force_sync insertResult

/-- External oracles used by one traversal pass: the blockchain-backend header
lookup (`Ok(Some(header))` flattened to the parent hash), the `sync_status`
row lookup used by `KnownHashes::contains`, and the result that
`insert_block_metadata` returns on the flushes of this pass. -/
structure Env where
  header : H256 → Option H256
  fetch : FetchFn
  insertRes : Except Unit Unit

/-- How the while-let loop of `SyncWorker::index` ended. -/
inductive StopReason
  | exhausted
  | zeroSentinel
  | ihcHit
  | dedupeStop
  | fuelOut
  deriving DecidableEq

/-- Outcome of one traversal pass: final worker state, the batches passed to
`insert_block_metadata` in call order, and the way the loop ended. -/
structure IndexResult where
  worker : SyncWorker
  flushed : List (List H256)
  reason : StopReason
  deriving DecidableEq

/-- The while-let loop of `SyncWorker::index`, with explicit fuel (the source
loop terminates because ancestor chains are finite; `fuelOut` marks an
interrupted walk).  `Vec::pop` takes from the end of the vector, so the most
recently pushed parent hash is processed first. -/
def SyncWorker.indexLoop (env : Env) (force_sync : Bool) :
    Nat → SyncWorker → List H256 → List (List H256) → IndexResult
  | 0, w, _hashes, acc =>
    { worker := w, flushed := acc, reason := StopReason.fuelOut }
  | fuel + 1, w, hashes, acc =>
    match hashes.getLast? with
    | none => { worker := w, flushed := acc, reason := StopReason.exhausted }
    | some hash =>
      if hash = 0 then
        { worker := w, flushed := acc, reason := StopReason.zeroSentinel }
      else if w.imported_blocks.contains hash env.fetch = true then
        { worker := w, flushed := acc, reason := StopReason.ihcHit }
      else
        let r := w.index_block hash force_sync env.insertRes
        if r.1 = false then
          { worker := r.2.1, flushed := acc ++ r.2.2, reason := StopReason.dedupeStop }
        else
          let rest :=
            match env.header hash with
            | some parent => hashes.dropLast ++ [parent]
            | none => hashes.dropLast
          SyncWorker.indexLoop env force_sync fuel r.2.1 rest (acc ++ r.2.2)

/-- Models `SyncWorker::index`. -/
def SyncWorker.index (w : SyncWorker) (env : Env) (hashes : List H256)
    (force_sync : Bool) (fuel : Nat) : IndexResult :=
  SyncWorker.indexLoop env force_sync fuel w hashes []

/-- Outcome of one interval tick of the select loop in `SyncWorker::run`. -/
structure TickResult where
  worker : SyncWorker
  resume_at : Option H256
  flushed : List (List H256)
  timerReset : Bool
  deriving DecidableEq

/-- The interval branch of the select loop in `SyncWorker::run`: on a failed
`leaves()` nothing runs; on success the resume checkpoint (if any) is pushed
and cleared, cached leaves are dropped, and a non-force traversal runs.  The
timer is reset to the configured interval on both branches. -/
def SyncWorker.intervalTick (w : SyncWorker) (resume_at : Option H256)
    (leavesResult : Except Unit (List H256)) (env : Env) (fuel : Nat) : TickResult :=
  match leavesResult with
  | Except.error _ =>
    { worker := w, resume_at := resume_at, flushed := [], timerReset := true }
  | Except.ok leaves0 =>
    let pushed : List H256 × Option H256 :=
      match resume_at with
      | some hash => (leaves0 ++ [hash], none)
      | none => (leaves0, none)
    let leaves1 := pushed.1.filter fun leaf => ! w.imported_blocks.contains_cached leaf
    let r := w.index env leaves1 false fuel
    { worker := r.worker, resume_at := pushed.2, flushed := r.flushed, timerReset := true }

/-- A hash together with its block number, as in `sp_blockchain`. -/
structure HashAndNumber where
  hash : H256
  number : Nat
  deriving DecidableEq

/-- A tree route delivered with a re-org notification. -/
structure TreeRoute where
  retracted : List HashAndNumber
  enacted : List HashAndNumber
  common_block : HashAndNumber
  deriving DecidableEq

/-- An import notification as consumed by the worker. -/
structure Notification where
  hash : H256
  is_new_best : Bool
  tree_route : Option TreeRoute
  deriving DecidableEq

/-- A call the worker makes on the indexer backend, in the order made. -/
inductive BackendCall
  | canonicalizeCall (retracted : List H256) (enacted : List H256)
  | createIndexes
  | insertMeta (hashes : List H256)
  deriving DecidableEq

/-- Models `SyncWorker::canonicalize`: extracts the retracted and enacted hash
lists in route order and performs the backend `canonicalize` call; an error
result is only logged, on both branches the same single call is made. -/
def SyncWorker.canonicalize (tree_route : TreeRoute)
    (canonResult : Except Unit Unit) : List BackendCall :=
  let retracted := tree_route.retracted.map HashAndNumber.hash
  let enacted := tree_route.enacted.map HashAndNumber.hash
  match canonResult with
  | Except.ok _ => [BackendCall.canonicalizeCall retracted enacted]
  | Except.error _ => [BackendCall.canonicalizeCall retracted enacted]

/-- Outcome of one notification branch of the select loop. -/
structure NotifResult where
  worker : SyncWorker
  try_create_indexes : Bool
  calls : List BackendCall
  deriving DecidableEq

/-- The notification branch of the select loop in `SyncWorker::run`: a
non-best notification is ignored; otherwise canonicalization (when a tree
route is present) runs first, then the one-shot `create_indexes`, then a
force traversal of the notified head.  Returns the updated worker, the
updated one-shot flag and the ordered backend-call trace. -/
def SyncWorker.processNotification (w : SyncWorker) (try_create_indexes : Bool)
    (n : Notification) (canonResult : Except Unit Unit) (env : Env) (fuel : Nat) :
    NotifResult :=
  if n.is_new_best = true then
    let canonCalls : List BackendCall :=
      match n.tree_route with
      | some tr => SyncWorker.canonicalize tr canonResult
      | none => []
    let createStep : List BackendCall × Bool :=
      if try_create_indexes = true then ([BackendCall.createIndexes], false)
      else ([], try_create_indexes)
    let r := w.index env [n.hash] true fuel
    { worker := r.worker
      try_create_indexes := createStep.2
      calls := canonCalls ++ createStep.1 ++ r.flushed.map BackendCall.insertMeta }
  else
    { worker := w, try_create_indexes := try_create_indexes, calls := [] }

/-- External oracles used by the startup phase of `SyncWorker::run`: the
`sync_status` table (ascending id order), the client header lookup flattened
to the parent hash, and the result of `insert_genesis_block_metadata`. -/
structure StartupEnv where
  sync_status : List H256
  clientHeaderParent : H256 → Option H256
  genesisResult : Except Unit (Option H256)

/-- Outcome of the startup phase. -/
structure StartupResult where
  worker : SyncWorker
  resume_at : Option H256
  deriving DecidableEq

/-- The startup phase of `SyncWorker::run` (success path of the fatal
`populate_cache` expect): hydrate the cache, then either set the resume
checkpoint from the parent of the latest known hash, or — when the cache is
empty — insert genesis metadata and on success push the genesis hash. -/
def SyncWorker.startup (batch_size : Nat) (senv : StartupEnv) : StartupResult :=
  let w0 := SyncWorker.new batch_size
  let w1 : SyncWorker :=
    { w0 with imported_blocks := w0.imported_blocks.populate_cache senv.sync_status }
  match w1.imported_blocks.latest with
  | some hash =>
    match senv.clientHeaderParent hash with
    | some parent => { worker := w1, resume_at := some parent }
    | none => { worker := w1, resume_at := none }
  | none =>
    match senv.genesisResult with
    | Except.ok (some genesis_hash) =>
      { worker := { w1 with imported_blocks := (w1.imported_blocks.insert genesis_hash).2 }
        resume_at := none }
    | _ => { worker := w1, resume_at := none }

/-- The all-zero sentinel is absent from both in-memory containers of the
worker. -/
abbrev SyncWorker.zeroFree (w : SyncWorker) : Prop :=
  (0 : H256) ∉ w.imported_blocks.cache ∧ (0 : H256) ∉ w.current_batch

/-- A traversal environment with an empty chain view and a healthy empty
database. -/
def envTriv : Env :=
  { header := fun _ => none, fetch := dbFetch [], insertRes := Except.ok () }

/-- A chain of two blocks: block `5` has parent `6`, and `6` is already
recorded in `sync_status`. -/
def envChain : Env :=
  { header := fun h => if h = 5 then some 6 else none
    fetch := dbFetch [6]
    insertRes := Except.ok () }

/-- A startup environment with one recorded hash and a successful genesis
insertion. -/
def senvTriv : StartupEnv :=
  { sync_status := [3]
    clientHeaderParent := fun _ => none
    genesisResult := Except.ok (some 9) }

/-- A one-block re-org route: retract block `9`, enact block `7`. -/
def trMini : TreeRoute :=
  { retracted := [⟨9, 2⟩], enacted := [⟨7, 2⟩], common_block := ⟨3, 1⟩ }

/-- A new-best notification for block `5` carrying `trMini`. -/
def nMini : Notification :=
  { hash := 5, is_new_best := true, tree_route := some trMini }

theorem KnownHashes.insert_cache_size (k : KnownHashes) (v : H256) :
    ((k.insert v).2).cache_size = k.cache_size := rfl

theorem KnownHashes.insert_cache (k : KnownHashes) (v : H256) :
    ((k.insert v).2).cache =
      v :: (if k.cache.length = k.cache_size then k.cache.dropLast else k.cache) := by
  simp only [KnownHashes.insert, popBack]

theorem KnownHashes.mem_insert_cache {k : KnownHashes} {v x : H256}
    (hx : x ∈ ((k.insert v).2).cache) : x = v ∨ x ∈ k.cache := by
  rw [KnownHashes.insert_cache] at hx
  rcases List.mem_cons.mp hx with h | h
  · exact Or.inl h
  · refine Or.inr ?_
    by_cases hc : k.cache.length = k.cache_size
    · rw [if_pos hc] at h
      exact (List.dropLast_sublist k.cache).subset h
    · rwa [if_neg hc] at h

theorem KnownHashes.append_cache_size (k : KnownHashes) (l : List H256) :
    (k.append l).cache_size = k.cache_size := by
  induction l generalizing k with
  | nil => rfl
  | cons a t ih =>
    show (((k.insert a).2).append t).cache_size = k.cache_size
    rw [ih, KnownHashes.insert_cache_size]

theorem KnownHashes.mem_append_cache {k : KnownHashes} {l : List H256} {x : H256}
    (hx : x ∈ (k.append l).cache) : x ∈ k.cache ∨ x ∈ l := by
  induction l generalizing k with
  | nil => exact Or.inl hx
  | cons a t ih =>
    have hx2 : x ∈ (((k.insert a).2).append t).cache := hx
    rcases ih hx2 with h | h
    · rcases KnownHashes.mem_insert_cache h with h | h
      · exact Or.inr (by simp [h])
      · exact Or.inl h
    · exact Or.inr (List.mem_cons_of_mem _ h)

theorem KnownHashes.insert_zeroFree {k : KnownHashes} {v : H256}
    (hk : (0 : H256) ∉ k.cache) (hv : v ≠ 0) :
    (0 : H256) ∉ ((k.insert v).2).cache := by
  intro h
  rcases KnownHashes.mem_insert_cache h with h | h
  · exact hv h.symm
  · exact hk h

theorem KnownHashes.append_zeroFree {k : KnownHashes} {l : List H256}
    (hk : (0 : H256) ∉ k.cache) (hl : (0 : H256) ∉ l) :
    (0 : H256) ∉ (k.append l).cache := by
  intro h
  rcases KnownHashes.mem_append_cache h with h | h
  · exact hk h
  · exact hl h

theorem SyncWorker.index_current_batch_eq (w : SyncWorker) (res : Except Unit Unit) :
    w.index_current_batch res =
      { w with
        imported_blocks := w.imported_blocks.append w.current_batch
        current_batch := [] } := by
  cases res <;> rfl

theorem SyncWorker.flushCheck_fst (w : SyncWorker) (f : Bool) (res : Except Unit Unit) :
    (w.flushCheck f res).1 = true := by
  unfold SyncWorker.flushCheck
  split <;> rfl

theorem SyncWorker.index_block_fst_false_iff (w : SyncWorker) (hash : H256) (f : Bool)
    (res : Except Unit Unit) :
    (w.index_block hash f res).1 = false ↔ (hash ∈ w.current_batch ∧ f = false) := by
  unfold SyncWorker.index_block
  by_cases hm : hash ∈ w.current_batch
  · cases f <;> simp [hm, SyncWorker.flushCheck_fst]
  · simp [hm, SyncWorker.flushCheck_fst]

theorem SyncWorker.index_block_force (w : SyncWorker) (hash : H256)
    (res : Except Unit Unit) :
    (w.index_block hash true res).1 = true ∧
    (w.index_block hash true res).2.1.current_batch = [] ∧
    (w.index_block hash true res).2.2 =
      [if hash ∈ w.current_batch then w.current_batch else w.current_batch ++ [hash]] := by
  unfold SyncWorker.index_block SyncWorker.flushCheck
  by_cases hm : hash ∈ w.current_batch <;>
    simp [hm, SyncWorker.index_current_batch_eq]

theorem SyncWorker.index_block_cache_size (w : SyncWorker) (hash : H256) (f : Bool)
    (res : Except Unit Unit) :
    (w.index_block hash f res).2.1.imported_blocks.cache_size =
      w.imported_blocks.cache_size := by
  unfold SyncWorker.index_block SyncWorker.flushCheck
  by_cases hm : hash ∈ w.current_batch <;> cases f <;>
    simp only [hm, ite_true, ite_false, if_pos, if_neg, not_false_eq_true] <;>
    split <;>
    simp [SyncWorker.index_current_batch_eq, KnownHashes.append_cache_size]

theorem SyncWorker.zeroFree_def (w : SyncWorker) :
    w.zeroFree ↔ ((0 : H256) ∉ w.imported_blocks.cache ∧ (0 : H256) ∉ w.current_batch) :=
  Iff.rfl

theorem SyncWorker.flushCheck_zeroFree {w : SyncWorker} (f : Bool)
    (res : Except Unit Unit) (h1 : (0 : H256) ∉ w.imported_blocks.cache)
    (h2 : (0 : H256) ∉ w.current_batch) :
    (w.flushCheck f res).2.1.zeroFree ∧
    ∀ b ∈ (w.flushCheck f res).2.2, (0 : H256) ∉ b := by
  unfold SyncWorker.flushCheck
  by_cases hcond : (f = true ∨ w.current_batch.length = w.batch_size)
  · rw [if_pos hcond]
    refine ⟨?_, ?_⟩
    · show (w.index_current_batch res).zeroFree
      rw [SyncWorker.index_current_batch_eq, SyncWorker.zeroFree_def]
      exact ⟨KnownHashes.append_zeroFree h1 h2, by simp⟩
    · show ∀ b ∈ [w.current_batch], (0 : H256) ∉ b
      intro b hbm
      rw [List.mem_singleton] at hbm
      subst hbm
      exact h2
  · rw [if_neg hcond]
    exact ⟨⟨h1, h2⟩, by intro b hbm; simp at hbm⟩

theorem SyncWorker.index_block_zeroFree {w : SyncWorker} (hash : H256) (f : Bool)
    (res : Except Unit Unit) (hw : w.zeroFree) (hh : hash ≠ 0) :
    (w.index_block hash f res).2.1.zeroFree ∧
    ∀ b ∈ (w.index_block hash f res).2.2, (0 : H256) ∉ b := by
  obtain ⟨hc, hb⟩ := hw
  have hbatch : (0 : H256) ∉ w.current_batch ++ [hash] := by
    intro h
    rcases List.mem_append.mp h with h | h
    · exact hb h
    · exact hh (List.mem_singleton.mp h).symm
  unfold SyncWorker.index_block
  by_cases hm : hash ∈ w.current_batch
  · by_cases hf : f = false
    · rw [if_pos hm, if_pos hf]
      exact ⟨⟨hc, hb⟩, by intro b hbm; simp at hbm⟩
    · rw [if_pos hm, if_neg hf]
      exact SyncWorker.flushCheck_zeroFree f res hc hb
  · rw [if_neg hm]
    exact SyncWorker.flushCheck_zeroFree
      (w := { w with current_batch := w.current_batch ++ [hash] }) f res hc hbatch

theorem SyncWorker.indexLoop_cache_size (env : Env) (f : Bool) (fuel : Nat) :
    ∀ (w : SyncWorker) (hashes : List H256) (acc : List (List H256)),
      (SyncWorker.indexLoop env f fuel w hashes acc).worker.imported_blocks.cache_size =
        w.imported_blocks.cache_size := by
  induction fuel with
  | zero => intro w hashes acc; rfl
  | succ fuel ih =>
    intro w hashes acc
    simp only [SyncWorker.indexLoop]
    cases hl : hashes.getLast? with
    | none => rfl
    | some hash =>
      by_cases hz : hash = 0
      · simp [hz]
      · by_cases hcon : w.imported_blocks.contains hash env.fetch = true
        · simp [hz, hcon]
        · by_cases hret : (w.index_block hash f env.insertRes).1 = false <;>
            simp [hz, hcon, hret, ih, SyncWorker.index_block_cache_size]

theorem SyncWorker.indexLoop_zeroFree (env : Env) (f : Bool) (fuel : Nat) :
    ∀ (w : SyncWorker) (hashes : List H256) (acc : List (List H256)),
      w.zeroFree → (∀ b ∈ acc, (0 : H256) ∉ b) →
      (SyncWorker.indexLoop env f fuel w hashes acc).worker.zeroFree ∧
      ∀ b ∈ (SyncWorker.indexLoop env f fuel w hashes acc).flushed, (0 : H256) ∉ b := by
  induction fuel with
  | zero => intro w hashes acc hw hacc; exact ⟨hw, hacc⟩
  | succ fuel ih =>
    intro w hashes acc hw hacc
    simp only [SyncWorker.indexLoop]
    cases hl : hashes.getLast? with
    | none => exact ⟨hw, hacc⟩
    | some hash =>
      by_cases hz : hash = 0
      · simp only [hz, if_pos rfl]
        exact ⟨hw, hacc⟩
      · by_cases hcon : w.imported_blocks.contains hash env.fetch = true
        · simp only [hz, if_neg, hcon, if_pos rfl, ite_true]
          exact ⟨hw, hacc⟩
        · have hblk := SyncWorker.index_block_zeroFree hash f env.insertRes hw hz
          have haccflush :
              ∀ b ∈ acc ++ (w.index_block hash f env.insertRes).2.2, (0 : H256) ∉ b := by
            intro b hbmem
            rcases List.mem_append.mp hbmem with h | h
            · exact hacc b h
            · exact hblk.2 b h
          by_cases hret : (w.index_block hash f env.insertRes).1 = false
          · simp only [hz, hcon, hret, ite_true, ite_false, if_neg, if_pos]
            exact ⟨hblk.1, haccflush⟩
          · simp only [hz, hcon, hret, ite_true, ite_false, if_neg, if_pos]
            exact ih _ _ _ hblk.1 haccflush

theorem SyncWorker.indexLoop_force_batch (env : Env) (fuel : Nat) :
    ∀ (w : SyncWorker) (hashes : List H256) (acc : List (List H256)),
      w.current_batch = [] → (∀ b ∈ acc, b.length = 1) →
      (SyncWorker.indexLoop env true fuel w hashes acc).worker.current_batch = [] ∧
      ∀ b ∈ (SyncWorker.indexLoop env true fuel w hashes acc).flushed, b.length = 1 := by
  induction fuel with
  | zero => intro w hashes acc hw hacc; exact ⟨hw, hacc⟩
  | succ fuel ih =>
    intro w hashes acc hw hacc
    simp only [SyncWorker.indexLoop]
    cases hl : hashes.getLast? with
    | none => exact ⟨hw, hacc⟩
    | some hash =>
      by_cases hz : hash = 0
      · simp only [hz, if_pos rfl]
        exact ⟨hw, hacc⟩
      · by_cases hcon : w.imported_blocks.contains hash env.fetch = true
        · simp only [hz, if_neg, hcon, if_pos rfl, ite_true]
          exact ⟨hw, hacc⟩
        · have hblk := SyncWorker.index_block_force w hash env.insertRes
          have hflush : (w.index_block hash true env.insertRes).2.2 = [[hash]] := by
            rw [hblk.2.2, hw]
            simp
          have haccflush :
              ∀ b ∈ acc ++ (w.index_block hash true env.insertRes).2.2, b.length = 1 := by
            intro b hbmem
            rcases List.mem_append.mp hbmem with h | h
            · exact hacc b h
            · rw [hflush] at h
              simp_all
          by_cases hret : (w.index_block hash true env.insertRes).1 = false
          · rw [hblk.1] at hret
            simp at hret
          · simp only [hz, hcon, hret, ite_true, ite_false, if_neg, if_pos]
            exact ih _ _ _ hblk.2.1 haccflush

theorem SyncWorker.index_block_eq (w : SyncWorker) (hash : H256) (force : Bool)
    (res : Except Unit Unit) :
    w.index_block hash force res =
      if hash ∈ w.current_batch then
        if force = false then (false, w, [])
        else (true, w.index_current_batch res, [w.current_batch])
      else
        if force = true ∨ w.current_batch.length + 1 = w.batch_size then
          (true,
            SyncWorker.index_current_batch
              { w with current_batch := w.current_batch ++ [hash] } res,
            [w.current_batch ++ [hash]])
        else (true, { w with current_batch := w.current_batch ++ [hash] }, []) := by
  unfold SyncWorker.index_block SyncWorker.flushCheck
  by_cases hm : hash ∈ w.current_batch
  · rw [if_pos hm, if_pos hm]
    cases force
    · rfl
    · simp
  · rw [if_neg hm, if_neg hm]
    by_cases hcond : force = true ∨ w.current_batch.length + 1 = w.batch_size
    · rw [if_pos hcond, if_pos]
      simpa using hcond
    · rw [if_neg hcond, if_neg]
      simpa using hcond

/-- C1 counterexample: flushing the pending batch `[5]` while
`insert_block_metadata` returns an error still inserts `5` into the IHC and
clears the batch; a following non-force traversal of `[5]` then stops on the
IHC hit and performs no flush, so `5` is not re-attempted. -/
theorem c1_counterexample :
    ((⟨⟨[], 0⟩, [5], 10⟩ : SyncWorker).index_current_batch
        (Except.error ())).imported_blocks.cache = [5] ∧
    ((⟨⟨[], 0⟩, [5], 10⟩ : SyncWorker).index_current_batch
        (Except.error ())).current_batch = [] ∧
    (((⟨⟨[], 0⟩, [5], 10⟩ : SyncWorker).index_current_batch (Except.error ())).index
        envTriv [5] false 3).reason = StopReason.ihcHit ∧
    (((⟨⟨[], 0⟩, [5], 10⟩ : SyncWorker).index_current_batch (Except.error ())).index
        envTriv [5] false 3).flushed = [] := by
  decide

/-- C1 (amended): an error returned by `insert_block_metadata` during a flush
is only logged — the in-memory outcome of the flush does not depend on the
result: the worker appends every hash of the flushed batch to the IHC and
clears the batch exactly as on success, so those hashes are treated as indexed
and are not re-attempted. -/
theorem c1_flush_ignores_insert_error (w : SyncWorker) (res : Except Unit Unit) :
    w.index_current_batch res = w.index_current_batch (Except.ok ()) ∧
    (w.index_current_batch res).imported_blocks =
      w.imported_blocks.append w.current_batch ∧
    (w.index_current_batch res).current_batch = [] := by
  cases res <;> exact ⟨rfl, rfl, rfl⟩

/-- C2 (code evaluated at the failing input): a worker built by
`SyncWorker::new` default-constructs its `KnownHashes`, so the IHC capacity is
`0` — not `100`; a single insert evicts nothing yet makes the cache length `1`,
already exceeding the capacity, and a second insert grows the cache to length
`2`: the cache length exceeds the capacity and no eviction ever occurs. -/
theorem c2_code_eval :
    (SyncWorker.new 10).imported_blocks.cache_size = 0 ∧
    (SyncWorker.new 10).imported_blocks.cache_size ≠ 100 ∧
    ((SyncWorker.new 10).imported_blocks.insert 5).1 = none ∧
    (((SyncWorker.new 10).imported_blocks.insert 5).2.cache.length >
      (SyncWorker.new 10).imported_blocks.cache_size) ∧
    ((((SyncWorker.new 10).imported_blocks.insert 5).2.insert 6).2.cache.length = 2 ∧
      (((SyncWorker.new 10).imported_blocks.insert 5).2.insert 6).1 = none) := by
  decide

/-- C3 counterexample: with `batch_size = 3`, a non-force traversal of leaf `5`
whose parent `6` is already recorded in `sync_status` terminates on the IHC
contains hit, yet leaves the pending batch `[5]` nonempty. -/
theorem c3_counterexample :
    ((SyncWorker.new 3).index envChain [5] false 10).reason = StopReason.ihcHit ∧
    ((SyncWorker.new 3).index envChain [5] false 10).worker.current_batch = [5] ∧
    ((SyncWorker.new 3).index envChain [5] false 10).worker.current_batch ≠ [] := by
  decide

/-- C3 (amended): the pending batch is empty after every flush, and every
force traversal begun with an empty pending batch ends with it empty; a
non-force traversal that terminates on an IHC hit or the zero sentinel may
leave its partial batch pending for later passes. -/
theorem c3_amended_pending (w wf : SyncWorker) (res : Except Unit Unit) (env : Env)
    (hashes : List H256) (fuel : Nat) (h0 : wf.current_batch = []) :
    (w.index_current_batch res).current_batch = [] ∧
    (wf.index env hashes true fuel).worker.current_batch = [] := by
  refine ⟨?_, ?_⟩
  · rw [SyncWorker.index_current_batch_eq]
  · exact (SyncWorker.indexLoop_force_batch env fuel wf hashes [] h0
      (by intro b hb; simp at hb)).1

/-- Witness for C3: the hypothesis holds and the force-pass clause evaluates
at a concrete worker and environment. -/
theorem c3_amended_pending_witness :
    (SyncWorker.new 3).current_batch = [] ∧
    ((SyncWorker.new 3).index envTriv [7] true 5).worker.current_batch = [] :=
  ⟨rfl, (c3_amended_pending (SyncWorker.new 3) (SyncWorker.new 3) (Except.ok ())
      envTriv [7] 5 rfl).2⟩

/-- C4: `index_block` returns false exactly on a duplicate hash without force;
an absent hash is appended exactly once and the pending batch stays
duplicate-free (as does every flushed batch); a flush is triggered exactly
when force is true or the append made the batch reach `batch_size`; in every
case other than the duplicate-without-force one the call returns true. -/
theorem c4_index_block_contract (w : SyncWorker) (hash : H256) (force : Bool)
    (res : Except Unit Unit) (hnd : w.current_batch.Nodup) :
    ((w.index_block hash force res).1 = false ↔
      (hash ∈ w.current_batch ∧ force = false)) ∧
    (¬ (hash ∈ w.current_batch ∧ force = false) →
      (w.index_block hash force res).1 = true) ∧
    (hash ∉ w.current_batch → (w.current_batch ++ [hash]).count hash = 1) ∧
    (hash ∉ w.current_batch →
      (((w.index_block hash force res).2.2 = [] ∧
          (w.index_block hash force res).2.1.current_batch =
            w.current_batch ++ [hash]) ∨
        ((w.index_block hash force res).2.2 = [w.current_batch ++ [hash]] ∧
          (w.index_block hash force res).2.1.current_batch = []))) ∧
    (w.index_block hash force res).2.1.current_batch.Nodup ∧
    (∀ b ∈ (w.index_block hash force res).2.2, b.Nodup) ∧
    ((w.index_block hash force res).2.2 ≠ [] ↔
      (force = true ∨
        (hash ∉ w.current_batch ∧ w.current_batch.length + 1 = w.batch_size))) := by
  have hndpush : (w.current_batch ++ [hash]).Nodup ∨ hash ∈ w.current_batch := by
    by_cases hm : hash ∈ w.current_batch
    · exact Or.inr hm
    · refine Or.inl (List.Nodup.append hnd (List.nodup_singleton hash) ?_)
      intro x hx hx2
      exact hm ((List.mem_singleton.mp hx2) ▸ hx)
  rw [SyncWorker.index_block_eq]
  by_cases hm : hash ∈ w.current_batch
  · rw [if_pos hm]
    cases force
    · simp only [if_pos rfl]
      refine ⟨by simp [hm], by simp [hm], ?_, ?_, hnd, by simp, ?_⟩
      · intro hx; exact absurd hm hx
      · intro hx; exact absurd hm hx
      · simp [hm]
    · simp only [Bool.true_eq_false, if_neg, ite_false]
      rw [SyncWorker.index_current_batch_eq]
      refine ⟨by simp, by simp, ?_, ?_, by simp, ?_, by simp⟩
      · intro hx; exact absurd hm hx
      · intro hx; exact absurd hm hx
      · intro b hb
        rw [List.mem_singleton] at hb
        exact hb ▸ hnd
  · rw [if_neg hm]
    have hnd2 : (w.current_batch ++ [hash]).Nodup := by
      rcases hndpush with h | h
      · exact h
      · exact absurd h hm
    have hcount : (w.current_batch ++ [hash]).count hash = 1 := by
      rw [List.count_append, List.count_eq_zero_of_not_mem hm]
      simp
    by_cases hcond : force = true ∨ w.current_batch.length + 1 = w.batch_size
    · rw [if_pos hcond]
      rw [SyncWorker.index_current_batch_eq]
      refine ⟨by simp [hm], by simp, fun _ => hcount, ?_, by simp, ?_, ?_⟩
      · intro _
        exact Or.inr ⟨rfl, rfl⟩
      · intro b hb
        rw [List.mem_singleton] at hb
        exact hb ▸ hnd2
      · simp only [ne_eq, List.cons_ne_self]
        constructor
        · intro _
          rcases hcond with h | h
          · exact Or.inl h
          · exact Or.inr ⟨hm, h⟩
        · intro _
          simp
    · rw [if_neg hcond]
      refine ⟨by simp [hm], by simp, fun _ => hcount, ?_, hnd2, by simp, ?_⟩
      · intro _
        exact Or.inl ⟨rfl, rfl⟩
      · constructor
        · intro h; exact absurd rfl h
        · intro h
          rcases h with h | h
          · exact absurd (Or.inl h) hcond
          · exact absurd (Or.inr h.2) hcond

/-- Witness for C4: the hypothesis holds at a fresh worker and the
return-value clause evaluates there. -/
theorem c4_index_block_contract_witness :
    (SyncWorker.new 3).current_batch.Nodup ∧
    (((SyncWorker.new 3).index_block 5 false (Except.ok ())).1 = false ↔
      (5 ∈ (SyncWorker.new 3).current_batch ∧ false = false)) :=
  ⟨by decide, (c4_index_block_contract (SyncWorker.new 3) 5 false (Except.ok ())
      (by decide)).1⟩

/-- C6: `contains` returns true on a cache hit for every fetch function (the
database is not consulted); on a cache miss against a healthy database it
returns true exactly when `sync_status` holds a row for the hash; and on a
cache miss whose query fails it returns false, treating the hash as not yet
indexed. -/
theorem c6_contains_contract (k : KnownHashes) (v : H256) (tbl : List H256) :
    (k.contains_cached v = true → ∀ fetch : FetchFn, k.contains v fetch = true) ∧
    (k.contains_cached v = false →
      ((k.contains v (dbFetch tbl) = true ↔ v ∈ tbl) ∧
        k.contains v errFetch = false)) := by
  constructor
  · intro hhit fetch
    unfold KnownHashes.contains
    simp [hhit]
  · intro hmiss
    constructor
    · unfold KnownHashes.contains dbFetch
      by_cases hv : v ∈ tbl <;> simp [hmiss, hv]
    · unfold KnownHashes.contains errFetch
      simp [hmiss]

/-- Witness for C6: both hypotheses hold at concrete caches, and the three
conclusions evaluate there. -/
theorem c6_contains_contract_witness :
    ((⟨[4], 1⟩ : KnownHashes).contains 4 errFetch = true) ∧
    ((⟨[4], 1⟩ : KnownHashes).contains 5 (dbFetch [5]) = true ↔ (5 : H256) ∈ [5]) ∧
    ((⟨[4], 1⟩ : KnownHashes).contains 5 errFetch = false) :=
  ⟨(c6_contains_contract ⟨[4], 1⟩ 4 []).1 (by decide) errFetch,
   ((c6_contains_contract ⟨[4], 1⟩ 5 [5]).2 (by decide)).1,
   ((c6_contains_contract ⟨[4], 1⟩ 5 [5]).2 (by decide)).2⟩

/-- C10: when `leaves()` fails on an interval tick, the tick performs no
traversal and no backend call, leaves the worker (IHC and pending batch)
unchanged, preserves `resume_at`, and still resets the timer to the
configured interval; `resume_at` is cleared exactly on ticks where `leaves()`
succeeds. -/
theorem c10_tick_leaves_error_is_noop (w : SyncWorker) (resume_at : Option H256)
    (env : Env) (fuel : Nat) :
    SyncWorker.intervalTick w resume_at (Except.error ()) env fuel =
      { worker := w, resume_at := resume_at, flushed := [], timerReset := true } ∧
    ∀ leaves,
      (SyncWorker.intervalTick w resume_at (Except.ok leaves) env fuel).resume_at =
        none := by
  refine ⟨rfl, ?_⟩
  intro leaves
  cases resume_at <;> rfl

theorem SyncWorker.index_cache_size (w : SyncWorker) (env : Env) (hashes : List H256)
    (force : Bool) (fuel : Nat) :
    (w.index env hashes force fuel).worker.imported_blocks.cache_size =
      w.imported_blocks.cache_size :=
  SyncWorker.indexLoop_cache_size env force fuel w hashes []

theorem SyncWorker.index_zeroFree (w : SyncWorker) (env : Env) (hashes : List H256)
    (force : Bool) (fuel : Nat) (hw : w.zeroFree) :
    (w.index env hashes force fuel).worker.zeroFree ∧
    ∀ b ∈ (w.index env hashes force fuel).flushed, (0 : H256) ∉ b :=
  SyncWorker.indexLoop_zeroFree env force fuel w hashes [] hw
    (by intro b hb; simp at hb)

theorem SyncWorker.startup_eq (bs : Nat) (senv : StartupEnv) :
    SyncWorker.startup bs senv =
      match senv.genesisResult with
      | Except.ok (some g) =>
        { worker := ⟨⟨[g], 0⟩, [], bs⟩, resume_at := none }
      | _ => { worker := ⟨⟨[], 0⟩, [], bs⟩, resume_at := none } := by
  unfold SyncWorker.startup
  cases senv.genesisResult with
  | ok o => cases o <;> rfl
  | error e => rfl

theorem SyncWorker.intervalTick_ok_eq (w : SyncWorker) (ra : Option H256)
    (leaves0 : List H256) (env : Env) (fuel : Nat) :
    SyncWorker.intervalTick w ra (Except.ok leaves0) env fuel =
      { worker := (w.index env
            ((match ra with | some h => leaves0 ++ [h] | none => leaves0).filter
              fun leaf => ! w.imported_blocks.contains_cached leaf) false fuel).worker
        resume_at := none
        flushed := (w.index env
            ((match ra with | some h => leaves0 ++ [h] | none => leaves0).filter
              fun leaf => ! w.imported_blocks.contains_cached leaf) false fuel).flushed
        timerReset := true } := by
  cases ra <;> rfl

theorem SyncWorker.processNotification_eq (w : SyncWorker) (t : Bool)
    (n : Notification) (canonRes : Except Unit Unit) (env : Env) (fuel : Nat) :
    SyncWorker.processNotification w t n canonRes env fuel =
      if n.is_new_best = true then
        { worker := (w.index env [n.hash] true fuel).worker
          try_create_indexes := if t = true then false else t
          calls :=
            (match n.tree_route with
              | some tr =>
                [BackendCall.canonicalizeCall (tr.retracted.map HashAndNumber.hash)
                  (tr.enacted.map HashAndNumber.hash)]
              | none => []) ++
            (if t = true then [BackendCall.createIndexes] else []) ++
            (w.index env [n.hash] true fuel).flushed.map BackendCall.insertMeta }
      else { worker := w, try_create_indexes := t, calls := [] } := by
  unfold SyncWorker.processNotification SyncWorker.canonicalize
  by_cases hb : n.is_new_best = true
  · rw [if_pos hb, if_pos hb]
    cases htr : n.tree_route with
    | none => cases t <;> simp
    | some tr => cases canonRes <;> cases t <;> simp
  · rw [if_neg hb, if_neg hb]

/-- C5: the all-zero sentinel never enters the worker state: startup with a
genesis insertion returning a nonzero hash yields a zero-free worker (the
hydration query loads nothing since the capacity is zero); and from any
zero-free worker, a traversal pass over any frontier, an interval tick for any
leaves result and any resume checkpoint — including the zero parent hash of
genesis — and a notification branch all keep the IHC and the pending batch
free of zero and never pass zero to `insert_block_metadata`: the traversal
breaks on the zero check before enqueueing. -/
theorem c5_zero_sentinel_never_enters (bs : Nat) (senv : StartupEnv)
    (w : SyncWorker) (env : Env) (hashes : List H256) (force : Bool) (fuel : Nat)
    (resume_at : Option H256) (leavesResult : Except Unit (List H256))
    (t : Bool) (n : Notification) (canonRes : Except Unit Unit)
    (hgen : ∀ g, senv.genesisResult = Except.ok (some g) → g ≠ 0)
    (hw : w.zeroFree) :
    (SyncWorker.startup bs senv).worker.zeroFree ∧
    ((w.index env hashes force fuel).worker.zeroFree ∧
      ∀ b ∈ (w.index env hashes force fuel).flushed, (0 : H256) ∉ b) ∧
    ((SyncWorker.intervalTick w resume_at leavesResult env fuel).worker.zeroFree ∧
      ∀ b ∈ (SyncWorker.intervalTick w resume_at leavesResult env fuel).flushed,
        (0 : H256) ∉ b) ∧
    ((SyncWorker.processNotification w t n canonRes env fuel).worker.zeroFree ∧
      ∀ b, BackendCall.insertMeta b ∈
          (SyncWorker.processNotification w t n canonRes env fuel).calls →
        (0 : H256) ∉ b) := by
  refine ⟨?_, SyncWorker.index_zeroFree w env hashes force fuel hw, ?_, ?_⟩
  · rw [SyncWorker.startup_eq]
    cases hg : senv.genesisResult with
    | error e => exact ⟨by simp, by simp⟩
    | ok o =>
      cases o with
      | none => exact ⟨by simp, by simp⟩
      | some g =>
        have hgz : g ≠ 0 := hgen g hg
        refine ⟨?_, by simp⟩
        intro hmem
        exact hgz (List.mem_singleton.mp hmem).symm
  · cases leavesResult with
    | error e =>
      have herr : SyncWorker.intervalTick w resume_at (Except.error e) env fuel =
          ⟨w, resume_at, [], true⟩ := rfl
      rw [herr]
      exact ⟨hw, by intro b hb; simp at hb⟩
    | ok leaves0 =>
      rw [SyncWorker.intervalTick_ok_eq]
      exact SyncWorker.index_zeroFree w env _ false fuel hw
  · rw [SyncWorker.processNotification_eq]
    by_cases hb : n.is_new_best = true
    · rw [if_pos hb]
      refine ⟨(SyncWorker.index_zeroFree w env [n.hash] true fuel hw).1, ?_⟩
      intro b hbm
      simp only [List.mem_append, List.mem_map] at hbm
      rcases hbm with (hbm | hbm) | hbm
      · cases htr : n.tree_route with
        | none => rw [htr] at hbm; simp at hbm
        | some tr => rw [htr] at hbm; simp at hbm
      · by_cases ht : t = true
        · rw [if_pos ht] at hbm; simp at hbm
        · rw [if_neg ht] at hbm; simp at hbm
      · obtain ⟨a, ha, hab⟩ := hbm
        injection hab with hab2
        subst hab2
        exact (SyncWorker.index_zeroFree w env [n.hash] true fuel hw).2 a ha
    · rw [if_neg hb]
      exact ⟨hw, by intro b hb2; simp at hb2⟩

/-- Witness for C5: the hypotheses hold at a concrete startup environment and
a fresh worker, and the startup conclusion evaluates there. -/
theorem c5_zero_sentinel_never_enters_witness :
    (SyncWorker.new 3).zeroFree ∧
    (SyncWorker.startup 3 senvTriv).worker.zeroFree :=
  ⟨by decide, (c5_zero_sentinel_never_enters 3 senvTriv (SyncWorker.new 3) envTriv
      [5, 0] false 4 (some 0) (Except.ok [5]) true nMini (Except.ok ())
      (by
        intro g hg
        have h2 : Except.ok (some 9) = Except.ok (some g) := hg
        injection h2 with h3
        injection h3 with h4
        subst h4
        decide) (by decide)).1⟩

/-- C7: on a new-best notification that carries a tree route, the backend
`canonicalize` call — with the retracted and enacted hash lists in route
order — is the first backend call of the branch, strictly before every
`insert_block_metadata` call of the head traversal; the result of
`canonicalize` does not affect the branch at all (errors are only logged),
and the head is still traversed and indexed. -/
theorem c7_canonicalize_before_indexing (w : SyncWorker) (t : Bool)
    (n : Notification) (tr : TreeRoute) (canonRes otherRes : Except Unit Unit)
    (env : Env) (fuel : Nat) (hbest : n.is_new_best = true)
    (hroute : n.tree_route = some tr) :
    (∃ rest,
      (SyncWorker.processNotification w t n canonRes env fuel).calls =
        BackendCall.canonicalizeCall (tr.retracted.map HashAndNumber.hash)
          (tr.enacted.map HashAndNumber.hash) :: rest ∧
      ∀ b, BackendCall.insertMeta b ∈ rest ↔
        b ∈ (w.index env [n.hash] true fuel).flushed) ∧
    SyncWorker.processNotification w t n canonRes env fuel =
      SyncWorker.processNotification w t n otherRes env fuel ∧
    (SyncWorker.processNotification w t n canonRes env fuel).worker =
      (w.index env [n.hash] true fuel).worker := by
  rw [SyncWorker.processNotification_eq, SyncWorker.processNotification_eq,
    if_pos hbest, hroute]
  refine ⟨?_, rfl, rfl⟩
  refine ⟨(if t = true then [BackendCall.createIndexes] else []) ++
    (w.index env [n.hash] true fuel).flushed.map BackendCall.insertMeta, ?_, ?_⟩
  · simp
  · intro b
    constructor
    · intro hbm
      simp only [List.mem_append, List.mem_map] at hbm
      rcases hbm with hbm | hbm
      · by_cases ht : t = true
        · rw [if_pos ht] at hbm; simp at hbm
        · rw [if_neg ht] at hbm; simp at hbm
      · obtain ⟨a, ha, hab⟩ := hbm
        injection hab with hab2
        subst hab2
        exact ha
    · intro hbm
      refine List.mem_append.mpr (Or.inr ?_)
      exact List.mem_map.mpr ⟨b, hbm, rfl⟩

/-- Witness for C7: the hypotheses hold at a concrete notification with a
route, and the error-insensitivity conclusion evaluates there. -/
theorem c7_canonicalize_before_indexing_witness :
    nMini.is_new_best = true ∧
    SyncWorker.processNotification (SyncWorker.new 3) true nMini (Except.error ())
        envTriv 4 =
      SyncWorker.processNotification (SyncWorker.new 3) true nMini (Except.ok ())
        envTriv 4 :=
  ⟨rfl, (c7_canonicalize_before_indexing (SyncWorker.new 3) true nMini trMini
      (Except.error ()) (Except.ok ()) envTriv 4 rfl rfl).2.1⟩

/-- C8: `SyncWorker::new` default-constructs its `KnownHashes`, so the IHC
capacity is 0 and no worker operation ever changes it; hydration therefore
loads nothing for any database contents (the query carries `LIMIT 0`), the
worker starts every run with an empty cache (`latest` returns nothing),
`resume_at` is never set at startup, and the genesis-insertion branch is taken
on every startup — the final cache is exactly the successfully inserted
genesis hash, or empty. -/
theorem c8_new_worker_capacity_zero (bs : Nat) (tbl : List H256)
    (senv : StartupEnv) (k : KnownHashes) (v : H256) (l : List H256)
    (w : SyncWorker) (res : Except Unit Unit) (hash : H256) (force : Bool)
    (env : Env) (fuel : Nat) (hashes : List H256) (ra : Option H256)
    (lr : Except Unit (List H256)) (t : Bool) (n : Notification) :
    (SyncWorker.new bs).imported_blocks.cache_size = 0 ∧
    (SyncWorker.new bs).imported_blocks.populate_cache tbl =
      (SyncWorker.new bs).imported_blocks ∧
    ((SyncWorker.new bs).imported_blocks.populate_cache tbl).latest = none ∧
    (SyncWorker.startup bs senv).resume_at = none ∧
    (SyncWorker.startup bs senv).worker.imported_blocks.cache =
      (match senv.genesisResult with
        | Except.ok (some g) => [g]
        | _ => []) ∧
    ((k.insert v).2).cache_size = k.cache_size ∧
    (k.append l).cache_size = k.cache_size ∧
    (k.populate_cache tbl).cache_size = k.cache_size ∧
    (w.index_current_batch res).imported_blocks.cache_size =
      w.imported_blocks.cache_size ∧
    (w.index_block hash force res).2.1.imported_blocks.cache_size =
      w.imported_blocks.cache_size ∧
    (w.index env hashes force fuel).worker.imported_blocks.cache_size =
      w.imported_blocks.cache_size ∧
    (SyncWorker.intervalTick w ra lr env fuel).worker.imported_blocks.cache_size =
      w.imported_blocks.cache_size ∧
    (SyncWorker.processNotification w t n res env fuel).worker.imported_blocks.cache_size =
      w.imported_blocks.cache_size := by
  refine ⟨rfl, ?_, ?_, ?_, ?_, rfl,
    KnownHashes.append_cache_size k l, rfl, ?_,
    SyncWorker.index_block_cache_size w hash force res,
    SyncWorker.index_cache_size w env hashes force fuel, ?_, ?_⟩
  · simp [SyncWorker.new, KnownHashes.mkDefault, KnownHashes.populate_cache,
      syncStatusDescLimit]
  · simp [SyncWorker.new, KnownHashes.mkDefault, KnownHashes.populate_cache,
      syncStatusDescLimit, KnownHashes.latest]
  · rw [SyncWorker.startup_eq]
    cases senv.genesisResult with
    | ok o => cases o <;> rfl
    | error e => rfl
  · rw [SyncWorker.startup_eq]
    cases senv.genesisResult with
    | ok o => cases o <;> rfl
    | error e => rfl
  · rw [SyncWorker.index_current_batch_eq]
    exact KnownHashes.append_cache_size w.imported_blocks w.current_batch
  · cases lr with
    | error e => rfl
    | ok leaves0 =>
      rw [SyncWorker.intervalTick_ok_eq]
      exact SyncWorker.index_cache_size w env _ false fuel
  · rw [SyncWorker.processNotification_eq]
    by_cases hb : n.is_new_best = true
    · rw [if_pos hb]
      exact SyncWorker.index_cache_size w env [n.hash] true fuel
    · rw [if_neg hb]

/-- C9 counterexample: a force traversal visiting block `5` on a worker whose
pending batch still holds the leftover hash `7` flushes the batch `[7, 5]` of
length 2 — the visited block is not committed in a call of batch length 1. -/
theorem c9_counterexample :
    ((⟨⟨[], 0⟩, [7], 10⟩ : SyncWorker).index envTriv [5] true 5).flushed = [[7, 5]] ∧
    ¬ ∀ b ∈ ((⟨⟨[], 0⟩, [7], 10⟩ : SyncWorker).index envTriv [5] true 5).flushed,
        b.length = 1 := by
  decide

/-- C9 (amended): `index_block` with `force_sync = true` always returns true
and triggers a flush in that same call; when the pending batch is empty
beforehand the flushed batch is exactly the single given hash, and a force
traversal begun with an empty pending batch commits every block it visits in
an `insert_block_metadata` call of batch length 1 — each walked ancestor
individually, not only the notified head; a nonempty pending batch only adds
its leftover hashes to the first flush. -/
theorem c9_force_flush_per_block (w w0 : SyncWorker) (hash : H256)
    (res : Except Unit Unit) (env : Env) (hashes : List H256) (fuel : Nat)
    (h0 : w0.current_batch = []) :
    (w.index_block hash true res).1 = true ∧
    (w.index_block hash true res).2.2 ≠ [] ∧
    (w0.index_block hash true res).2.2 = [[hash]] ∧
    ∀ b ∈ (w0.index env hashes true fuel).flushed, b.length = 1 := by
  obtain ⟨h1, _, h3⟩ := SyncWorker.index_block_force w hash res
  obtain ⟨_, _, g3⟩ := SyncWorker.index_block_force w0 hash res
  refine ⟨h1, ?_, ?_, ?_⟩
  · rw [h3]
    simp
  · rw [g3, h0]
    simp
  · exact (SyncWorker.indexLoop_force_batch env fuel w0 hashes [] h0
      (by intro b hb; simp at hb)).2

/-- Witness for C9: the hypothesis holds at a fresh worker and the
single-hash-flush conclusion evaluates there. -/
theorem c9_force_flush_per_block_witness :
    (SyncWorker.new 3).current_batch = [] ∧
    ((SyncWorker.new 3).index_block 5 true (Except.ok ())).2.2 = [[5]] :=
  ⟨rfl, (c9_force_flush_per_block (SyncWorker.new 3) (SyncWorker.new 3) 5
      (Except.ok ()) envTriv [7] 4 rfl).2.2.1⟩

end Frontier
